import Mathlib

/-!
Verification of the antenna runtime-integrity core: the hash-chained
risk-acceptance ledger (`src/acceptance`), the security watcher's kill-switch
decision (`src/runtime/watcher.ts`), and the incident correlator
(`src/incident/report.ts`).

Modelling conventions
* Timestamps are epoch milliseconds (`Int`).  The source stores ISO-8601
  strings and compares them through `new Date(...)`; epoch values carry the
  same order, so date parsing/printing is abstracted away.
* The SHA-256 primitive (`node:crypto`) as well as `JSON.parse` /
  `JSON.stringify` are external library functions, not code of this
  repository; they enter the model as parameters `hash : String → String`,
  `parse : String → Option RiskAcceptance`, `serialize : RiskAcceptance →
  String` (with round-trip hypotheses where a proof needs them).
* Filesystem access is modelled by passing file contents (lists of lines)
  explicitly; a missing file is `Option.none` or the empty list, matching the
  `existsSync` guards in the source.
-/

namespace Antenna

/-! ### String helpers mirroring the JavaScript primitives used in the source -/

/-- `charsHasPre p s` : the char list `p` is a prefix of the char list `s`
(models the prefix test underlying `String.prototype.startsWith`). -/
def charsHasPre : List Char → List Char → Bool
  | [], _ => true
  | _ :: _, [] => false
  | a :: p, b :: s => a == b && charsHasPre p s

/-- `charsHasSub p s` : `p` occurs as a contiguous run inside `s`
(models `String.prototype.includes`). -/
def charsHasSub (p : List Char) : List Char → Bool
  | [] => charsHasPre p []
  | c :: s => charsHasPre p (c :: s) || charsHasSub p s

/-- JS `s.startsWith(p)`. -/
def strStarts (s p : String) : Bool := charsHasPre p.toList s.toList

/-- JS `s.includes(p)`. -/
def strIncludes (s p : String) : Bool := charsHasSub p.toList s.toList

/-- JS `s.slice(0, n)` (ASCII payloads only appear here). -/
def strTake (s : String) (n : Nat) : String := String.mk (s.toList.take n)

/-- JS `s.toLowerCase()` (ASCII case folding suffices for the fixed search
terms used by the correlator). -/
def lowerStr (s : String) : String := String.mk (s.toList.map Char.toLower)

/-! ### Data model (`src/models.ts`) -/

/-- `RiskAcceptance` from `src/models.ts`; `accepted_at` / `expires_at` are the
epoch values of the stored ISO strings. -/
structure RiskAcceptance where
  id : String
  accepted_at : Int
  accepted_by : String
  reason : String
  mitigations : List String
  expires_at : Int
  prev_hash : String
  deriving DecidableEq, Repr, Inhabited

/-- `SeverityLevel` from `src/models.ts`. -/
inductive SeverityLevel where
  | block | critical | warning | info
  deriving DecidableEq, Repr

/-- `Finding` from `src/models.ts` (the optional presentation-only fields are
kept as options). -/
structure Finding where
  id : String
  level : SeverityLevel
  title : String
  message : String
  autoFixable : Bool
  deriving DecidableEq, Repr

/-! ### Acceptance ledger (`src/acceptance`, class `AcceptanceManager`)

The ledger file content is a list of (non-empty, trimmed) lines, exactly what
`readFileSync(..).trim().split('\n').filter(Boolean)` yields in the source. -/

/-- The genesis `prev_hash` value `'0'.repeat(64)`. -/
def genesisHash : String := String.mk (List.replicate 64 '0')

/-- Result record of `AcceptanceManager.verifyChain`. -/
structure VerifyResult where
  valid : Bool
  error : Option String
  deriving DecidableEq, Repr

/-- The `Chain broken at line …` message built by `verifyChain`. -/
def chainMsg (lineNo : Nat) (expected found : String) : String :=
  "Chain broken at line " ++ toString lineNo ++ ": expected "
    ++ strTake expected 16 ++ "..., got " ++ strTake found 16 ++ "..."

/-- The `Invalid JSON at line …` message built by `verifyChain`. -/
def invalidMsg (lineNo : Nat) : String :=
  "Invalid JSON at line " ++ toString lineNo

/-- The loop body of `AcceptanceManager.verifyChain` (watcher.ts sibling file
`src/acceptance/index.ts`, lines 160-191): walk the lines with the running
`expectedPrevHash`, failing at the first unparsable line or `prev_hash`
mismatch.  `i` is the zero-based index of the first line of `lines` in the
file. -/
def verifyFrom (hash : String → String) (parse : String → Option RiskAcceptance)
    (expected : String) (i : Nat) : List String → VerifyResult
  | [] => { valid := true, error := none }
  | l :: rest =>
    match parse l with
    | none => { valid := false, error := some (invalidMsg (i + 1)) }
    | some r =>
      if r.prev_hash = expected then
        verifyFrom hash parse (hash l) (i + 1) rest
      else
        { valid := false, error := some (chainMsg (i + 1) expected r.prev_hash) }

/-- `AcceptanceManager.verifyChain`: start from the genesis hash at line 1.
(A missing file is the empty line list and is trivially valid.) -/
def verifyChain (hash : String → String) (parse : String → Option RiskAcceptance)
    (lines : List String) : VerifyResult :=
  verifyFrom hash parse genesisHash 0 lines

/-- `AcceptanceManager.accept` (lines 117-155): compute `prev_hash` from the
last existing line (genesis when empty), build the record, append its
serialization as one new line.  `expiresAt` models
`expiresAt.setDate(getDate() + expirationDays)` as whole days in
milliseconds. -/
def accept (hash : String → String) (serialize : RiskAcceptance → String)
    (lines : List String) (findingId reason : String) (mitigations : List String)
    (expirationDays : Int) (now : Int) (acceptedBy : Option String)
    (currentUser : String) : RiskAcceptance × List String :=
  let prevHash : String :=
    match lines.getLast? with
    | some last => hash last
    | none => genesisHash
  let acceptance : RiskAcceptance :=
    { id := findingId
      accepted_at := now
      accepted_by := acceptedBy.getD currentUser
      reason := reason
      mitigations := mitigations
      expires_at := now + expirationDays * 86400000
      prev_hash := prevHash }
  (acceptance, lines ++ [serialize acceptance])

/-- The `antenna accept` command path (`src/cli.ts`, lines 360-400): reject a
non-positive expiration, then refuse to append whenever `verifyChain` on the
current ledger fails; only then call `AcceptanceManager.accept`.  `none`
models `process.exit(1)`. -/
def acceptCommand (hash : String → String) (parse : String → Option RiskAcceptance)
    (serialize : RiskAcceptance → String) (lines : List String)
    (findingId reason : String) (mitigations : List String)
    (expirationDays : Int) (now : Int) (currentUser : String) :
    Option (RiskAcceptance × List String) :=
  if expirationDays ≤ 0 then none
  else if (verifyChain hash parse lines).valid then
    some (accept hash serialize lines findingId reason mitigations
      expirationDays now none currentUser)
  else none

/-- `AcceptanceManager.loadAcceptances` (lines 84-93):
`lines.map((line) => JSON.parse(line))` — the map is evaluated left to right
and the first unparsable line throws, aborting the whole call.  `Except`
models the thrown `SyntaxError`. -/
def loadAcceptances (parse : String → Option RiskAcceptance) :
    List String → Except String (List RiskAcceptance)
  | [] => .ok []
  | l :: rest =>
    match parse l with
    | none => .error ("SyntaxError: unexpected token in " ++ l)
    | some r =>
      match loadAcceptances parse rest with
      | .ok rs => .ok (r :: rs)
      | .error e => .error e

/-- `AcceptanceManager.getAcceptance` (lines 98-112): `find` the first record
whose `id` matches, return `null` when there is none or when that record is
expired (`new Date(expires_at) < new Date()`). -/
def getAcceptance (accs : List RiskAcceptance) (findingId : String) (now : Int) :
    Option RiskAcceptance :=
  match accs.find? (fun a => a.id == findingId) with
  | none => none
  | some a => if a.expires_at < now then none else some a

/-- `AcceptanceManager.getSummary` (lines 196-225): counts plus the map from
id to its most recent active record (later active records overwrite earlier
ones, modelled by an association-list update). -/
def getSummary (accs : List RiskAcceptance) (now : Int) :
    Nat × Nat × Nat × List (String × RiskAcceptance) :=
  let step := fun (st : Nat × Nat × List (String × RiskAcceptance)) (a : RiskAcceptance) =>
    if a.expires_at < now then (st.1 + 1, st.2.1, st.2.2)
    else (st.1, st.2.1 + 1, (st.2.2.filter (fun p => p.1 ≠ a.id)) ++ [(a.id, a)])
  let r := accs.foldl step (0, 0, [])
  (accs.length, r.2.1, r.1, r.2.2)

/-! ### Security watcher (`src/runtime/watcher.ts`) -/

/-- `WatchEvent.severity`. -/
inductive WSeverity where
  | info | warning | high | critical
  deriving DecidableEq, Repr

/-- `WatchEvent.type`. -/
inductive WEventType where
  | file_access | config_change | secret_detected | process_spawn
  deriving DecidableEq, Repr

/-- `WatchEvent`; `timestamp` is the epoch value of the stored ISO string,
`details` keeps the key/value pairs the source stores (absent values stay
`none`, matching JS `undefined`). -/
structure WatchEvent where
  timestamp : Int
  type : WEventType
  severity : WSeverity
  source : String
  message : String
  details : List (String × Option String)
  deriving DecidableEq, Repr

/-- The `killOn` threshold: `'critical' | 'high'`. -/
inductive KillThreshold where
  | critical | high
  deriving DecidableEq, Repr

/-- `WatchOptions` as declared in the source: every field optional. -/
structure WatchOptions where
  killOn : Option KillThreshold
  maxKillsPerHour : Option Nat
  restartAfter : Option Nat
  startupCooldown : Option Nat
  outputFile : Option String
  deriving DecidableEq, Repr

/-- The `SecurityWatcher` constructor: apply the `?? 3` / `?? 60` defaults,
pass the rest through. -/
def mkWatchOptions (o : WatchOptions) : WatchOptions :=
  { killOn := o.killOn
    maxKillsPerHour := some (o.maxKillsPerHour.getD 3)
    restartAfter := o.restartAfter
    startupCooldown := some (o.startupCooldown.getD 60)
    outputFile := o.outputFile }

/-- The mutable kill-switch fields of `SecurityWatcher`
(`killCount`, `killCountResetTime`, `startTime`). -/
structure KillState where
  killCount : Nat
  killCountResetTime : Int
  startTime : Int
  deriving DecidableEq, Repr

/-- Outcome of one run of the kill decision: which early return (or the
protective action) the control flow reached.  `killed ok scheduled` records
whether the stop command succeeded and whether an auto-restart was
scheduled. -/
inductive KillOutcome where
  | disabled
  | cooldown
  | noMatch
  | rateLimited
  | killed (stopOk : Bool) (restartScheduled : Bool)
  deriving DecidableEq, Repr

/-- `SecurityWatcher.killGateway` (lines 352-381): increment the kill counter
first, then attempt `systemctl stop` / `pkill` (its success is the external
input `stopOk`), reporting either way; schedule a deferred restart when
`restartAfter` is configured. -/
def killGateway (opts : WatchOptions) (st : KillState) (stopOk : Bool) :
    KillOutcome × KillState :=
  let st1 : KillState := { st with killCount := st.killCount + 1 }
  (.killed stopOk opts.restartAfter.isSome, st1)

/-- The body of the `setTimeout` callback scheduled by `killGateway`: it runs
`exec('sudo systemctl start openclaw')` and logs — it touches none of the
watcher's kill-switch state. -/
def restartCallback (st : KillState) : KillState := st

/-- `SecurityWatcher.checkKillCondition` (lines 314-347).  `now` stands for
`Date.now()`; the source computes `elapsedSeconds = (now - startTime) / 1000`
as a float and compares it with the cooldown in seconds, which for integral
cooldowns is the millisecond comparison used here. -/
def checkKillCondition (opts : WatchOptions) (st : KillState) (ev : WatchEvent)
    (now : Int) (stopOk : Bool) : KillOutcome × KillState :=
  match opts.killOn with
  | none => (.disabled, st)
  | some killThreshold =>
    if now - st.startTime < (opts.startupCooldown.getD 60 : Nat) * 1000 then
      (.cooldown, st)
    else
      let shouldKill : Bool :=
        (killThreshold == .critical && ev.severity == .critical)
          || (killThreshold == .high
              && (ev.severity == .critical || ev.severity == .high))
      if !shouldKill then (.noMatch, st)
      else
        let st1 : KillState :=
          if now - st.killCountResetTime > 3600000 then
            { st with killCount := 0, killCountResetTime := now }
          else st
        if st1.killCount ≥ opts.maxKillsPerHour.getD 3 then (.rateLimited, st1)
        else killGateway opts st1 stopOk

/-- One event arriving at the event sink: the event, the `Date.now()` at which
the kill decision runs, and whether the stop command would succeed. -/
structure StepInput where
  ev : WatchEvent
  now : Int
  stopOk : Bool
  deriving DecidableEq, Repr

/-- The serialized event sink: every emitted event is fed through
`checkKillCondition` in arrival order, threading the kill-switch state. -/
def runSink (opts : WatchOptions) : KillState → List StepInput →
    List KillOutcome × KillState
  | st, [] => ([], st)
  | st, s :: rest =>
    let r := checkKillCondition opts st s.ev s.now s.stopOk
    let rs := runSink opts r.2 rest
    (r.1 :: rs.1, rs.2)

/-- Parsed auditd record (interface `AuditEvent` in the source). -/
structure AuditEvent where
  type : String
  key : Option String
  auid : Option String
  uid : Option String
  exe : Option String
  name : Option String
  success : Option String
  deriving DecidableEq, Repr

/-- `SecurityWatcher.handleAuditEvent` (lines 257-287): classification of a
relevant audit record into a `WatchEvent` — type `file_access`, default
severity `warning`, upgraded to `high` when the matched key contains
`ssh`/`aws` (sensitive-file message) or `creds`/`gpg` (credential message). -/
def handleAuditEvent (e : AuditEvent) (now : Int) : WatchEvent :=
  let sev0 : WSeverity := .warning
  let msg0 : String := "Sensitive file access detected"
  let hit1 : Bool :=
    match e.key with
    | some k => strIncludes k "ssh" || strIncludes k "aws"
    | none => false
  let sev1 := if hit1 then .high else sev0
  let msg1 := if hit1 then "Sensitive file access: " ++ (e.name.getD "unknown") else msg0
  let hit2 : Bool :=
    match e.key with
    | some k => strIncludes k "creds" || strIncludes k "gpg"
    | none => false
  let sev2 := if hit2 then .high else sev1
  let msg2 := if hit2 then "Credential file access: " ++ (e.name.getD "unknown") else msg1
  { timestamp := now
    type := .file_access
    severity := sev2
    source := "auditd"
    message := msg2
    details :=
      [("key", e.key), ("file", e.name), ("exe", e.exe), ("success", e.success)] }

/-- `generateAuditdRules` (lines 403-421): the auditd rules installed for a
user, as (watched path, permissions, tag) triples in emission order. -/
def generateAuditdRules (username : String) : List (String × String × String) :=
  [ ("/home/" ++ username ++ "/.ssh", "rwa", "antenna_ssh")
  , ("/home/" ++ username ++ "/.aws", "rwa", "antenna_aws")
  , ("/home/" ++ username ++ "/.config/gcloud", "rwa", "antenna_gcloud")
  , ("/home/" ++ username ++ "/.gnupg", "rwa", "antenna_gpg")
  , ("/home/" ++ username ++ "/.openclaw/openclaw.json", "wa", "antenna_config")
  , ("/home/" ++ username ++ "/.openclaw/credentials", "rwa", "antenna_creds") ]

/-- The installed tag set, i.e. the keys of `generateAuditdRules`. -/
def installedTags : List String :=
  (generateAuditdRules "openclaw").map (fun r => r.2.2)

/-- The tags the rules file groups under its `# Cloud credentials` comment. -/
def cloudCredentialTags : List String := ["antenna_aws", "antenna_gcloud"]

/-! ### Incident correlator (`src/incident/report.ts`) -/

/-- `AcceptedRiskContribution`. -/
structure AcceptedRiskContribution where
  acceptance : RiskAcceptance
  howContributed : String
  deriving DecidableEq, Repr

/-- `EvidenceItem` (`type` is one of `transcript`/`log`/`auditd`). -/
structure EvidenceItem where
  type : String
  path : String
  deriving DecidableEq, Repr

/-- `IncidentTimelineEntry`. -/
structure IncidentTimelineEntry where
  timestamp : Int
  event : String
  severity : WSeverity
  source : String
  deriving DecidableEq, Repr

/-- `IncidentReport`. -/
structure IncidentReport where
  id : String
  timestamp : Int
  summary : String
  timeline : List IncidentTimelineEntry
  findingsAtIncident : List Finding
  acceptedRisksAtIncident : List RiskAcceptance
  acceptedRisksContributed : List AcceptedRiskContribution
  evidence : List EvidenceItem
  recommendations : List String
  deriving DecidableEq, Repr

/-- Does any event message mention a known channel name
(`telegram`/`discord`/`whatsapp`, lower-cased)? -/
def hasChannelEvent (events : List WatchEvent) : Bool :=
  events.any (fun e =>
    strIncludes (lowerStr e.message) "telegram"
      || strIncludes (lowerStr e.message) "discord"
      || strIncludes (lowerStr e.message) "whatsapp")

/-- Does any event mention gateway/network terms (lower-cased)? -/
def hasNetworkEvent (events : List WatchEvent) : Bool :=
  events.any (fun e =>
    strIncludes (lowerStr e.message) "gateway"
      || strIncludes (lowerStr e.message) "network")

/-- The per-acceptance body of `IncidentReporter.findContributingRisks`
(lines 158-210): `howContributed` starts `null` and each matching category
rule overwrites it (the source checks `CHAN-`, then `TOOL-`, then `NET-`). -/
def contributionFor (events : List WatchEvent) (a : RiskAcceptance) :
    Option String :=
  let h0 : Option String := none
  let h1 : Option String :=
    if strStarts a.id "CHAN-" && hasChannelEvent events then
      some "Channel policy acceptance may have allowed unauthorized access"
    else h0
  let h2 : Option String :=
    if strStarts a.id "TOOL-" && events.any (fun e => e.type == .file_access) then
      some "Tool/sandbox acceptance may have allowed file system access"
    else h1
  let h3 : Option String :=
    if strStarts a.id "NET-" && hasNetworkEvent events then
      some "Network exposure acceptance may have allowed remote access"
    else h2
  h3

/-- `IncidentReporter.findContributingRisks`: collect, in ledger order, the
acceptances for which a category rule fired. -/
def findContributingRisks (events : List WatchEvent)
    (acceptances : List RiskAcceptance) : List AcceptedRiskContribution :=
  acceptances.filterMap (fun a =>
    (contributionFor events a).map (fun h => ⟨a, h⟩))

/-- `[...new Set(xs)]`: keep the first occurrence of each element, preserving
insertion order. -/
def dedupInsertionOrder (xs : List String) : List String :=
  xs.foldl (fun acc x => if x ∈ acc then acc else acc ++ [x]) []

/-- `IncidentReporter.generateRecommendations` (lines 281-314): event-type
advice first, then advice per contributing acceptance category, then the
`Set`-based dedup. -/
def generateRecommendations (events : List WatchEvent)
    (contributions : List AcceptedRiskContribution) : List String :=
  let base : List String :=
    (if events.any (fun e => e.type == .file_access) then
      ["Enable sandbox mode for agents", "Add sensitive paths to exec blocked paths"]
    else [])
    ++ (if events.any (fun e => e.type == .secret_detected) then
      ["Rotate any exposed credentials immediately", "Enable log redaction"]
    else [])
  let withContrib : List String :=
    contributions.foldl (fun acc c =>
      acc
        ++ (if strStarts c.acceptance.id "CHAN-" then ["Restrict channel to allowlist"] else [])
        ++ (if strStarts c.acceptance.id "TOOL-" then ["Re-evaluate sandbox settings"] else []))
      base
  dedupInsertionOrder withContrib

/-- The filesystem surroundings read by `IncidentReporter.collectEvidence`:
today's transcript files under `~/.openclaw/agents` and whether the gateway
log exists. -/
structure EvidenceEnv where
  transcriptsToday : List String
  gatewayLogExists : Bool
  deriving DecidableEq, Repr

/-- `IncidentReporter.collectEvidence` (lines 215-251): at most five
transcripts, the gateway log when present, and an `ausearch` pointer when any
event came from auditd. -/
def collectEvidence (env : EvidenceEnv) (events : List WatchEvent) :
    List EvidenceItem :=
  ((env.transcriptsToday.take 5).map (fun t => ⟨"transcript", t⟩))
    ++ (if env.gatewayLogExists then
      [⟨"log", "/var/log/openclaw/gateway.log"⟩] else [])
    ++ (if events.any (fun e => e.source == "auditd") then
      [⟨"auditd", "ausearch -k antenna_* -ts recent"⟩] else [])

/-- `IncidentReporter.generateFromEvents` (lines 56-112).  `accs` is what
`loadAcceptances` returned from disk; the generated id abbreviates the
source's `INC-<date>-<base36 now>` to a deterministic function of `now`. -/
def generateFromEvents (accs : List RiskAcceptance) (env : EvidenceEnv)
    (events : List WatchEvent) (findings : List Finding) (now : Int) :
    IncidentReport :=
  let activeAcceptances := accs.filter (fun a => now < a.expires_at)
  let timeline : List IncidentTimelineEntry :=
    events.map (fun e => ⟨e.timestamp, e.message, e.severity, e.source⟩)
  let contributions := findContributingRisks events activeAcceptances
  let evidence := collectEvidence env events
  let recommendations := generateRecommendations events contributions
  let criticalEvents := events.filter (fun e =>
    e.severity == .critical || e.severity == .high)
  let summary :=
    match criticalEvents with
    | e :: _ => e.message
    | [] =>
      match events with
      | e :: _ => e.message
      | [] => "Unknown incident"
  { id := "INC-" ++ toString now
    timestamp := now
    summary := summary
    timeline := timeline
    findingsAtIncident := findings
    acceptedRisksAtIncident := activeAcceptances
    acceptedRisksContributed := contributions
    evidence := evidence
    recommendations := recommendations }

/-- The backward scan of `IncidentReporter.generateLastIncident` over the
reversed line list: unparsable lines are skipped (the `catch {}`), the scan
stops at the first event older than the cutoff, and `unshift` puts later
lines behind earlier-scanned ones (so the result is in file order). -/
def collectRecent (parseEv : String → Option WatchEvent) (cutoff : Int) :
    List String → List WatchEvent
  | [] => []
  | l :: rest =>
    match parseEv l with
    | none => collectRecent parseEv cutoff rest
    | some e =>
      if e.timestamp < cutoff then []
      else collectRecent parseEv cutoff rest ++ [e]

/-- `IncidentReporter.generateLastIncident` (lines 117-153): `file` is the
(trimmed, non-empty) line list of `~/.openclaw/antenna-events.jsonl`, `none`
when the file is absent.  Returns `none` when there is no file, no lines, or
no event of the last hour; otherwise correlates the collected events with an
empty findings list. -/
def generateLastIncident (parseEv : String → Option WatchEvent)
    (accs : List RiskAcceptance) (env : EvidenceEnv)
    (file : Option (List String)) (now : Int) : Option IncidentReport :=
  match file with
  | none => none
  | some lines =>
    if lines.isEmpty then none
    else
      let recentEvents := collectRecent parseEv (now - 3600000) lines.reverse
      if recentEvents.isEmpty then none
      else some (generateFromEvents accs env recentEvents [] now)

/-! ## Theorems -/

/-! ### C10 — kill counter increment -/

/-- C10: whenever the kill decision reaches the protective action
(`killGateway`), the hourly kill counter is incremented exactly once before
the stop command result is observed, the increment is retained even when the
stop command fails (`stopOk = false` still yields `killCount + 1`), the
window-start is untouched, and the deferred auto-restart callback never
modifies the counter. -/
theorem killGateway_increments_once (opts : WatchOptions) (st : KillState)
    (stopOk : Bool) :
    (killGateway opts st stopOk).2.killCount = st.killCount + 1
    ∧ (killGateway opts st stopOk).2.killCountResetTime = st.killCountResetTime
    ∧ (killGateway opts st stopOk).2.startTime = st.startTime
    ∧ restartCallback (killGateway opts st stopOk).2 = (killGateway opts st stopOk).2 :=
  ⟨rfl, rfl, rfl, rfl⟩

/-! ### C4 — startup cooldown -/

/-- C4: with a startup cooldown of 60 seconds configured, every event
processed while less than 60 seconds have elapsed since watcher start leaves
the kill-switch state untouched and ends in the `disabled` or `cooldown`
early return — never in the protective action — regardless of severity. -/
theorem startupCooldown_blocks_action (opts : WatchOptions) (st : KillState)
    (ev : WatchEvent) (now : Int) (stopOk : Bool)
    (hcd : opts.startupCooldown = some 60)
    (hel : now - st.startTime < 60000) :
    (checkKillCondition opts st ev now stopOk).2 = st
    ∧ ((checkKillCondition opts st ev now stopOk).1 = .disabled
      ∨ (checkKillCondition opts st ev now stopOk).1 = .cooldown) := by
  cases hko : opts.killOn with
  | none => simp [checkKillCondition, hko]
  | some t =>
    have hc : now - st.startTime < (60000 : Int) := by omega
    simp [checkKillCondition, hko, hcd, hc]

/-- Witness for C4 at a concrete configuration and event. -/
theorem startupCooldown_blocks_action_witness :
    (checkKillCondition
        ⟨some .critical, some 3, none, some 60, none⟩
        ⟨0, 0, 0⟩
        ⟨1000, .file_access, .critical, "auditd", "m", []⟩ 1000 true).2
      = ⟨0, 0, 0⟩
    ∧ ((checkKillCondition
        ⟨some .critical, some 3, none, some 60, none⟩
        ⟨0, 0, 0⟩
        ⟨1000, .file_access, .critical, "auditd", "m", []⟩ 1000 true).1 = .disabled
      ∨ (checkKillCondition
        ⟨some .critical, some 3, none, some 60, none⟩
        ⟨0, 0, 0⟩
        ⟨1000, .file_access, .critical, "auditd", "m", []⟩ 1000 true).1 = .cooldown) :=
  startupCooldown_blocks_action
    ⟨some .critical, some 3, none, some 60, none⟩ ⟨0, 0, 0⟩
    ⟨1000, .file_access, .critical, "auditd", "m", []⟩ 1000 true rfl (by decide)

/-! ### C3 — threshold `critical`, one kill per hour, no cooldown -/

/-- The options of the C3 scenario, as normalized by the constructor:
`killOn = critical`, `maxKillsPerHour = 1`, `startupCooldown = 0`. -/
def opts3 : WatchOptions :=
  mkWatchOptions
    { killOn := some .critical, maxKillsPerHour := some 1,
      restartAfter := none, startupCooldown := some 0, outputFile := none }

/-- Default for positional lookups into an input sequence. -/
def dummyStep : StepInput :=
  { ev := { timestamp := 0, type := .file_access, severity := .info,
            source := "", message := "", details := [] }
    now := 0, stopOk := true }

/-- Number of critical-severity events in an input list. -/
def countCrit (l : List StepInput) : Nat :=
  l.countP (fun s => s.ev.severity == .critical)

/-- One step of the kill decision in the C3 scenario, for an event inside the
first hour of the window: a critical event kills when the counter is still
zero and is rate-limited otherwise; any other severity does not match the
threshold. -/
theorem checkKill_opts3_step (k : Nat) (t0 : Int) (s : StepInput)
    (h1 : t0 ≤ s.now) (h2 : s.now ≤ t0 + 3600000) :
    checkKillCondition opts3 ⟨k, t0, t0⟩ s.ev s.now s.stopOk =
      if s.ev.severity = .critical then
        (if k = 0 then (.killed s.stopOk false, ⟨1, t0, t0⟩)
         else (.rateLimited, ⟨k, t0, t0⟩))
      else (.noMatch, ⟨k, t0, t0⟩) := by
  have hcool : ¬ (s.now - t0 < (0 : Int)) := by omega
  have hreset : ¬ (s.now - t0 > (3600000 : Int)) := by omega
  by_cases hsev : s.ev.severity = .critical
  · by_cases hk : k = 0
    · simp [checkKillCondition, opts3, mkWatchOptions, killGateway, hsev, hk,
        hcool, hreset]
    · simp [checkKillCondition, opts3, mkWatchOptions, killGateway, hsev, hk,
        hcool, hreset, Nat.one_le_iff_ne_zero]
  · have hsev' : (s.ev.severity == WSeverity.critical) = false := by
      simp [hsev]
    simp [checkKillCondition, opts3, mkWatchOptions, hsev, hsev', hcool, hreset]

/-- Positional outcome of the event sink in the C3 scenario, for a start
state whose counter is `k` and whose window/start stamps are `t0`: event `j`
kills exactly when it is critical and `k` plus the number of earlier critical
events is still zero. -/
theorem runSink_opts3_outcome (t0 : Int) (evs : List StepInput) :
    ∀ (k : Nat), (∀ s ∈ evs, t0 ≤ s.now ∧ s.now ≤ t0 + 3600000) →
      ∀ j, j < evs.length →
        (runSink opts3 ⟨k, t0, t0⟩ evs).1.getD j .disabled =
          (if (evs.getD j dummyStep).ev.severity = .critical then
            (if k + countCrit (evs.take j) = 0 then
              .killed (evs.getD j dummyStep).stopOk false
             else .rateLimited)
           else .noMatch) := by
  induction evs with
  | nil => intro k _ j hj; simp at hj
  | cons s rest ih =>
    intro k hin j hj
    have hs := hin s (by simp)
    have hrest : ∀ x ∈ rest, t0 ≤ x.now ∧ x.now ≤ t0 + 3600000 := by
      intro x hx; exact hin x (by simp [hx])
    have hstep := checkKill_opts3_step k t0 s hs.1 hs.2
    by_cases hsev : s.ev.severity = .critical
    · by_cases hk : k = 0
      · rw [hk] at hstep ⊢
        rw [if_pos hsev, if_pos rfl] at hstep
        cases j with
        | zero => simp [runSink, hstep, hsev, countCrit]
        | succ j =>
          have hj' : j < rest.length := by simpa using hj
          have hih := ih 1 hrest j hj'
          have hcrit : ¬ (countCrit (s :: List.take j rest) = 0) := by
            simp [countCrit, List.countP_cons, hsev]
          simp only [runSink, hstep]
          simpa [hcrit] using hih
      · rw [if_pos hsev, if_neg hk] at hstep
        cases j with
        | zero => simp [runSink, hstep, hsev, hk, countCrit]
        | succ j =>
          have hj' : j < rest.length := by simpa using hj
          have hih := ih k hrest j hj'
          simp only [runSink, hstep]
          simpa [hk] using hih
    · rw [if_neg hsev] at hstep
      cases j with
      | zero => simp [runSink, hstep, hsev]
      | succ j =>
        have hj' : j < rest.length := by simpa using hj
        have hih := ih k hrest j hj'
        have hcc : countCrit (s :: List.take j rest) = countCrit (List.take j rest) := by
          simp [countCrit, List.countP_cons, hsev]
        simp only [runSink, hstep]
        simpa [hcc] using hih

/-- C3: with kill threshold `critical`, max kills per hour 1 and startup
cooldown 0, for any event sequence whose decision times lie within one hour
of the window start `t0`: the first critical event triggers exactly the
protective stop action, every later critical event in the same hour is
rate-limited instead, and a high-severity event never triggers any action. -/
theorem killSwitch_critical_scenario (evs : List StepInput) (t0 : Int)
    (hin : ∀ s ∈ evs, t0 ≤ s.now ∧ s.now ≤ t0 + 3600000) :
    ∀ j, j < evs.length →
      ((evs.getD j dummyStep).ev.severity = .critical →
        (∀ i, i < j → (evs.getD i dummyStep).ev.severity ≠ .critical) →
        (runSink opts3 ⟨0, t0, t0⟩ evs).1.getD j .disabled =
          .killed (evs.getD j dummyStep).stopOk false)
      ∧ ((evs.getD j dummyStep).ev.severity = .critical →
        (∃ i, i < j ∧ (evs.getD i dummyStep).ev.severity = .critical) →
        (runSink opts3 ⟨0, t0, t0⟩ evs).1.getD j .disabled = .rateLimited)
      ∧ ((evs.getD j dummyStep).ev.severity = .high →
        (runSink opts3 ⟨0, t0, t0⟩ evs).1.getD j .disabled = .noMatch) := by
  intro j hj
  have hmain := runSink_opts3_outcome t0 evs 0 hin j hj
  refine ⟨?_, ?_, ?_⟩
  · intro hc hnone
    have hcc : countCrit (evs.take j) = 0 := by
      rw [countCrit, List.countP_eq_zero]
      intro x hx
      obtain ⟨i, hi, hxi⟩ := List.getElem_of_mem hx
      have hij : i < j := lt_of_lt_of_le hi (by simp [List.length_take])
      have hilen : i < evs.length := lt_trans hij hj
      have hxv : x = evs.getD i dummyStep := by
        rw [← hxi, List.getElem_take, List.getD_eq_getElem evs dummyStep hilen]
      have := hnone i hij
      rw [← hxv] at this
      simpa using this
    rw [hmain, if_pos hc, if_pos (by omega)]
  · intro hc hex
    obtain ⟨i, hij, hci⟩ := hex
    have hilen : i < evs.length := lt_trans hij hj
    have hitake : i < (evs.take j).length := by
      simp [List.length_take]; omega
    have hcc : 0 < countCrit (evs.take j) := by
      rw [countCrit, List.countP_pos_iff]
      refine ⟨(evs.take j).get ⟨i, hitake⟩, List.get_mem _ _ hitake, ?_⟩
      have hxv : (evs.take j).get ⟨i, hitake⟩ = evs.getD i dummyStep := by
        rw [List.get_eq_getElem, List.getElem_take,
          List.getD_eq_getElem evs dummyStep hilen]
      rw [hxv]
      simpa using hci
    rw [hmain, if_pos hc, if_neg (by omega)]
  · intro hh
    have hnc : ¬ (evs.getD j dummyStep).ev.severity = .critical := by
      rw [hh]; simp
    rw [hmain, if_neg hnc]

/-- A concrete C3 input: a high event, then two critical events, then another
high event, all within the first hour after `t0 = 0`. -/
def evs3 : List StepInput :=
  [ ⟨⟨10, .file_access, .high, "auditd", "m1", []⟩, 10, true⟩
  , ⟨⟨20, .file_access, .critical, "auditd", "m2", []⟩, 20, true⟩
  , ⟨⟨30, .file_access, .critical, "auditd", "m3", []⟩, 30, false⟩
  , ⟨⟨40, .file_access, .high, "auditd", "m4", []⟩, 40, true⟩ ]

/-- Witness for C3 on `evs3`: the first critical event (index 1) kills, the
second (index 2) is rate-limited, the high event (index 0) does not match. -/
theorem killSwitch_critical_scenario_witness :
    (runSink opts3 ⟨0, 0, 0⟩ evs3).1.getD 1 .disabled = .killed true false
    ∧ (runSink opts3 ⟨0, 0, 0⟩ evs3).1.getD 2 .disabled = .rateLimited
    ∧ (runSink opts3 ⟨0, 0, 0⟩ evs3).1.getD 0 .disabled = .noMatch :=
  ⟨(killSwitch_critical_scenario evs3 0 (by decide) 1 (by decide)).1
      (by decide) (by decide),
   (killSwitch_critical_scenario evs3 0 (by decide) 2 (by decide)).2.1
      (by decide) ⟨1, by decide, by decide⟩,
   (killSwitch_critical_scenario evs3 0 (by decide) 0 (by decide)).2.2
      (by decide)⟩

/-! ### C1 — `verifyChain` characterization -/

/-- The `prev_hash` field of a parsed record (`""` is never reached on lines
that parse). -/
def prevOf (o : Option RiskAcceptance) : String :=
  match o with
  | some r => r.prev_hash
  | none => ""

/-- The expected hash at position `j` of a chain walk that starts from `e`:
`e` itself at position 0, the hash of the preceding line afterwards. -/
def relExpected (hash : String → String) (e : String) (lines : List String) :
    Nat → String
  | 0 => e
  | j + 1 => hash (lines.getD j "")

/-- Shift lemma for `relExpected` along a `cons`. -/
theorem relExpected_cons (hash : String → String) (e l : String)
    (rest : List String) (j : Nat) :
    relExpected hash e (l :: rest) (j + 1) = relExpected hash (hash l) rest j := by
  cases j <;> rfl

/-- `verifyFrom` succeeds exactly when every line's `prev_hash` matches the
expected hash at its position. -/
theorem verifyFrom_valid_iff (hash : String → String)
    (parse : String → Option RiskAcceptance) :
    ∀ (lines : List String) (e : String) (i : Nat),
      (∀ l ∈ lines, (parse l).isSome = true) →
      ((verifyFrom hash parse e i lines).valid = true ↔
        ∀ j, j < lines.length → prevOf (parse (lines.getD j "")) = relExpected hash e lines j) := by
  intro lines
  induction lines with
  | nil => intro e i _; simp [verifyFrom]
  | cons l rest ih =>
    intro e i hp
    obtain ⟨r, hr⟩ := Option.isSome_iff_exists.mp (hp l (by simp))
    have hrest : ∀ x ∈ rest, (parse x).isSome = true := by
      intro x hx; exact hp x (by simp [hx])
    rw [verifyFrom, hr]
    dsimp only
    by_cases hpe : r.prev_hash = e
    · rw [if_pos hpe]
      rw [ih (hash l) (i + 1) hrest]
      constructor
      · intro h j hj
        cases j with
        | zero => simpa [relExpected, prevOf, hr] using hpe
        | succ j =>
          rw [List.getD_cons_succ, relExpected_cons]
          exact h j (by simpa using hj)
      · intro h j hj
        have := h (j + 1) (by simpa using hj)
        rwa [List.getD_cons_succ, relExpected_cons] at this
    · rw [if_neg hpe]
      simp only [Bool.false_eq_true, false_iff]
      intro h
      have := h 0 (by simp)
      rw [List.getD_cons_zero, relExpected, hr] at this
      exact hpe this

/-- When `verifyFrom` fails on fully parsable lines, it reports the first
divergent position `d` as line `i + d + 1` with the expected and found hash
prefixes. -/
theorem verifyFrom_error_spec (hash : String → String)
    (parse : String → Option RiskAcceptance) :
    ∀ (lines : List String) (e : String) (i : Nat),
      (∀ l ∈ lines, (parse l).isSome = true) →
      (verifyFrom hash parse e i lines).valid = false →
      ∃ d, d < lines.length
        ∧ (∀ j, j < d → prevOf (parse (lines.getD j "")) = relExpected hash e lines j)
        ∧ prevOf (parse (lines.getD d "")) ≠ relExpected hash e lines d
        ∧ (verifyFrom hash parse e i lines).error =
            some (chainMsg (i + d + 1) (relExpected hash e lines d)
              (prevOf (parse (lines.getD d "")))) := by
  intro lines
  induction lines with
  | nil => intro e i _ hval; simp [verifyFrom] at hval
  | cons l rest ih =>
    intro e i hp hval
    obtain ⟨r, hr⟩ := Option.isSome_iff_exists.mp (hp l (by simp))
    have hrest : ∀ x ∈ rest, (parse x).isSome = true := by
      intro x hx; exact hp x (by simp [hx])
    rw [verifyFrom, hr] at hval ⊢
    dsimp only at hval ⊢
    by_cases hpe : r.prev_hash = e
    · rw [if_pos hpe] at hval ⊢
      obtain ⟨d, hd, hpre, hdiv, herr⟩ := ih (hash l) (i + 1) hrest hval
      refine ⟨d + 1, by simpa using hd, ?_, ?_, ?_⟩
      · intro j hj
        cases j with
        | zero => simpa [relExpected, prevOf, hr] using hpe
        | succ j =>
          rw [List.getD_cons_succ, relExpected_cons]
          exact hpre j (by omega)
      · rw [List.getD_cons_succ, relExpected_cons]
        exact hdiv
      · rw [List.getD_cons_succ, relExpected_cons, herr]
        congr 2
        omega
    · rw [if_neg hpe] at hval ⊢
      refine ⟨0, by simp, by omega, ?_, ?_⟩
      · rw [List.getD_cons_zero, relExpected, hr]
        exact hpe
      · rw [List.getD_cons_zero, relExpected, hr]
        simp [prevOf]

/-- C1 (amended): for every non-empty ledger whose lines all parse,
`verifyChain` succeeds iff every record's `prev_hash` equals the expected
hash at its position — the all-zero genesis value for the first record, the
hash of the preceding serialized line for every later record — and on
failure it reports the first divergent index (as a 1-based line number)
together with the 16-character prefixes of the expected and found hashes. -/
theorem verifyChain_characterization (hash : String → String)
    (parse : String → Option RiskAcceptance) (lines : List String)
    (_hne : lines ≠ [])
    (hp : ∀ l ∈ lines, (parse l).isSome = true) :
    ((verifyChain hash parse lines).valid = true ↔
      ∀ j, j < lines.length →
        prevOf (parse (lines.getD j "")) = relExpected hash genesisHash lines j)
    ∧ ((verifyChain hash parse lines).valid = false →
      ∃ d, d < lines.length
        ∧ (∀ j, j < d →
            prevOf (parse (lines.getD j "")) = relExpected hash genesisHash lines j)
        ∧ prevOf (parse (lines.getD d "")) ≠ relExpected hash genesisHash lines d
        ∧ (verifyChain hash parse lines).error =
            some (chainMsg (d + 1) (relExpected hash genesisHash lines d)
              (prevOf (parse (lines.getD d ""))))) := by
  constructor
  · exact verifyFrom_valid_iff hash parse lines genesisHash 0 hp
  · intro hval
    obtain ⟨d, hd, hpre, hdiv, herr⟩ :=
      verifyFrom_error_spec hash parse lines genesisHash 0 hp hval
    exact ⟨d, hd, hpre, hdiv, by simpa using herr⟩

/-- Do all ledger lines parse? (Bool rendering of the claim's side
condition.) -/
def allParseB (parse : String → Option RiskAcceptance) (lines : List String) : Bool :=
  lines.all (fun l => (parse l).isSome)

/-- Bool rendering of the claim's consecutive-pair condition: for every pair
of adjacent lines, the later record's `prev_hash` equals the hash of the
earlier line. -/
def consecPairsOk (hash : String → String) (parse : String → Option RiskAcceptance)
    (lines : List String) : Bool :=
  (lines.zip lines.tail).all (fun pr => prevOf (parse pr.2) == hash pr.1)

/-- A toy stand-in for the external SHA-256 primitive, used only to
instantiate hypotheses at concrete inputs. -/
def hashX : String → String := fun s => "H" ++ s

/-- A record whose `prev_hash` is not the genesis value. -/
def recBad : RiskAcceptance :=
  { id := "RISK-9", accepted_at := 0, accepted_by := "u", reason := "r",
    mitigations := [], expires_at := 10,
    prev_hash := String.mk (List.replicate 64 '1') }

/-- A parser for the one-line counterexample ledger. -/
def parseC1bad : String → Option RiskAcceptance :=
  fun s => if s = "only" then some recBad else none

/-- C1 counterexample: a non-empty, fully parsable one-line ledger with no
consecutive pairs at all — the claimed pair condition holds vacuously — yet
`verifyChain` fails, because the first record's `prev_hash` is not the
all-zero genesis value.  The claimed equivalence is therefore false as
stated. -/
theorem verifyChain_pairs_iff_cex :
    allParseB parseC1bad ["only"] = true
    ∧ consecPairsOk hashX parseC1bad ["only"] = true
    ∧ (verifyChain hashX parseC1bad ["only"]).valid = false := by
  refine ⟨by decide, by decide, by decide⟩

/-- First record of the two-line witness ledger: genesis `prev_hash`. -/
def recA : RiskAcceptance :=
  { id := "RISK-1", accepted_at := 0, accepted_by := "u", reason := "r1",
    mitigations := [], expires_at := 10, prev_hash := genesisHash }

/-- Second record of the two-line witness ledger: its `prev_hash` is
`hashX "a"`. -/
def recB : RiskAcceptance :=
  { id := "RISK-2", accepted_at := 1, accepted_by := "u", reason := "r2",
    mitigations := [], expires_at := 10, prev_hash := "Ha" }

/-- A parser for the two-line witness ledger. -/
def parseC1 : String → Option RiskAcceptance :=
  fun s => if s = "a" then some recA else if s = "b" then some recB else none

/-- Witness for C1 (amended) on a concrete two-line chained ledger. -/
theorem verifyChain_characterization_witness :
    (verifyChain hashX parseC1 ["a", "b"]).valid = true :=
  (verifyChain_characterization hashX parseC1 ["a", "b"]
    (by decide) (by decide)).1.mpr (by decide)

/-! ### C2 — appending preserves chain validity; broken chains are refused -/

/-- The running expected hash after a successful walk over `lines` that
started from `e`. -/
def finalExpected (hash : String → String) : String → List String → String
  | e, [] => e
  | _, l :: rest => finalExpected hash (hash l) rest

/-- A successful `verifyFrom` run over `xs` continues on an appended suffix
from the accumulated expected hash. -/
theorem verifyFrom_append (hash : String → String)
    (parse : String → Option RiskAcceptance) :
    ∀ (xs : List String) (e : String) (i : Nat) (ys : List String),
      (verifyFrom hash parse e i xs).valid = true →
      verifyFrom hash parse e i (xs ++ ys) =
        verifyFrom hash parse (finalExpected hash e xs) (i + xs.length) ys := by
  intro xs
  induction xs with
  | nil => intro e i ys _; simp [finalExpected]
  | cons l rest ih =>
    intro e i ys hval
    rw [verifyFrom] at hval
    rw [List.cons_append, verifyFrom]
    cases hpl : parse l with
    | none => rw [hpl] at hval; simp at hval
    | some r =>
      rw [hpl] at hval
      dsimp only at hval ⊢
      by_cases hpe : r.prev_hash = e
      · rw [if_pos hpe] at hval ⊢
        rw [ih (hash l) (i + 1) ys hval, finalExpected]
        congr 1
        simp
        omega
      · rw [if_neg hpe] at hval
        simp at hval

/-- `finalExpected` is the hash of the last line (or the start value when
there is none). -/
theorem finalExpected_getLast (hash : String → String) :
    ∀ (lines : List String) (e : String),
      finalExpected hash e lines =
        (match lines.getLast? with
         | some last => hash last
         | none => e) := by
  intro lines
  induction lines with
  | nil => intro e; rfl
  | cons l rest ih =>
    intro e
    cases rest with
    | nil => simp [finalExpected]
    | cons m t =>
      rw [finalExpected, ih (hash l), List.getLast?_cons_cons]
      cases h : (m :: t).getLast? with
      | none =>
        rw [List.getLast?_eq_none_iff] at h
        simp at h
      | some last => rfl

/-- C2: appending through `accept` to a ledger on which `verifyChain`
succeeds yields a ledger on which `verifyChain` still succeeds; the new
record's `prev_hash` is the hash of the last existing serialized line (the
genesis value when the ledger is empty); and the `antenna accept` command
path refuses to append whenever `verifyChain` on the current ledger fails.
`hrt` is the round-trip property of the external `JSON.stringify` /
`JSON.parse` pair at the new record. -/
theorem accept_preserves_chain (hash : String → String)
    (parse : String → Option RiskAcceptance) (serialize : RiskAcceptance → String)
    (lines : List String) (findingId reason : String) (mitigations : List String)
    (expirationDays now : Int) (acceptedBy : Option String) (currentUser : String)
    (r : RiskAcceptance) (newLines : List String)
    (hacc : accept hash serialize lines findingId reason mitigations
      expirationDays now acceptedBy currentUser = (r, newLines))
    (hrt : parse (serialize r) = some r)
    (hv : (verifyChain hash parse lines).valid = true) :
    (verifyChain hash parse newLines).valid = true
    ∧ r.prev_hash =
        (match lines.getLast? with
         | some last => hash last
         | none => genesisHash)
    ∧ (∀ lines2, (verifyChain hash parse lines2).valid = false →
        acceptCommand hash parse serialize lines2 findingId reason mitigations
          expirationDays now currentUser = none) := by
  have h1 : r = (accept hash serialize lines findingId reason mitigations
      expirationDays now acceptedBy currentUser).1 := by rw [hacc]
  have h2 : newLines = lines ++ [serialize r] := by
    have h3 := congrArg Prod.snd hacc
    rw [h1]
    exact h3.symm
  have hph : r.prev_hash =
      (match lines.getLast? with
       | some last => hash last
       | none => genesisHash) := by
    rw [h1]
    rfl
  refine ⟨?_, hph, ?_⟩
  · rw [h2, verifyChain] at *
    rw [verifyFrom_append hash parse lines genesisHash 0 _ hv]
    rw [verifyFrom, hrt]
    dsimp only
    rw [if_pos]
    · rw [verifyFrom]
    · rw [hph, finalExpected_getLast hash lines genesisHash]
  · intro lines2 hbad
    unfold acceptCommand
    by_cases hd : expirationDays ≤ 0
    · rw [if_pos hd]
    · rw [if_neg hd]
      simp [hbad]

/-- The record that `accept` builds from the witness inputs below. -/
def recNewW : RiskAcceptance :=
  { id := "F-1", accepted_at := 5, accepted_by := "u", reason := "r",
    mitigations := [], expires_at := 5 + 30 * 86400000,
    prev_hash := genesisHash }

/-- Witness serializer: sends every record to the line `"NEW"`. -/
def serializeW : RiskAcceptance → String := fun _ => "NEW"

/-- Witness parser: the line `"NEW"` parses back to `recNewW`. -/
def parseW : String → Option RiskAcceptance :=
  fun s => if s = "NEW" then some recNewW else none

/-- Witness stand-in for the hash primitive. -/
def hashW : String → String := fun s => "W" ++ s

/-- Witness for C2: accepting into the empty ledger yields a one-line ledger
that still verifies. -/
theorem accept_preserves_chain_witness :
    (verifyChain hashW parseW ["NEW"]).valid = true :=
  (accept_preserves_chain hashW parseW serializeW [] "F-1" "r" [] 30 5 none "u"
    recNewW ["NEW"] (by decide) (by decide) (by decide)).1

/-! ### C5 — `getAcceptance` lookup -/

/-- `List.find?` by id returns exactly the first matching element. -/
theorem find_by_id_eq_some (findingId : String) :
    ∀ (accs : List RiskAcceptance) (a : RiskAcceptance),
      accs.find? (fun x => x.id == findingId) = some a ↔
        a.id = findingId ∧
        ∃ pre post, accs = pre ++ a :: post ∧ ∀ b ∈ pre, b.id ≠ findingId := by
  intro accs
  induction accs with
  | nil =>
    intro a
    constructor
    · intro h; exact Option.noConfusion h
    · rintro ⟨-, pre, post, h, -⟩
      cases pre <;> simp at h
  | cons c rest ih =>
    intro a
    rw [List.find?_cons]
    by_cases hc : c.id = findingId
    · have hcb : (c.id == findingId) = true := by simpa using hc
      rw [hcb]
      dsimp only
      constructor
      · rintro h
        obtain rfl : c = a := by simpa using h
        exact ⟨hc, [], rest, rfl, by simp⟩
      · rintro ⟨ha, pre, post, heq, hpre⟩
        cases pre with
        | nil =>
          have hca : c = a := by
            simp only [List.nil_append, List.cons.injEq] at heq
            exact heq.1
          rw [hca]
        | cons p ps =>
          exfalso
          have hcp : c = p := by simpa using congrArg (fun l => l.headI) heq
          exact hpre p (by simp) (hcp ▸ hc)
    · have hcb : (c.id == findingId) = false := by simpa using hc
      rw [hcb]
      dsimp only
      rw [ih a]
      constructor
      · rintro ⟨ha, pre, post, heq, hpre⟩
        refine ⟨ha, c :: pre, post, by simp [heq], ?_⟩
        intro b hb
        rcases List.mem_cons.mp hb with rfl | hb
        · exact hc
        · exact hpre b hb
      · rintro ⟨ha, pre, post, heq, hpre⟩
        cases pre with
        | nil =>
          exfalso
          have : c = a := by simpa using congrArg (fun l => l.headI) heq
          exact hc (this ▸ ha)
        | cons p ps =>
          have hcp : c = p := by simpa using congrArg (fun l => l.headI) heq
          refine ⟨ha, ps, post, ?_, ?_⟩
          · simpa [hcp] using congrArg List.tail heq
          · intro b hb; exact hpre b (by simp [hb])

/-- C5 (amended): `getAcceptance` examines only the *first* record whose id
matches — it returns that record exactly when it is non-expired, and `none`
otherwise.  In particular it never returns an expired record, but a later
non-expired record is hidden by an earlier matching record. -/
theorem getAcceptance_first_match (accs : List RiskAcceptance)
    (findingId : String) (now : Int) (a : RiskAcceptance) :
    getAcceptance accs findingId now = some a ↔
      a.id = findingId ∧ a.expires_at ≥ now ∧
      ∃ pre post, accs = pre ++ a :: post ∧ ∀ b ∈ pre, b.id ≠ findingId := by
  unfold getAcceptance
  cases hf : accs.find? (fun x => x.id == findingId) with
  | none =>
    constructor
    · intro h; exact Option.noConfusion h
    · rintro ⟨ha, hexp, pre, post, heq, hpre⟩
      have : accs.find? (fun x => x.id == findingId) = some a := by
        rw [find_by_id_eq_some]
        exact ⟨ha, pre, post, heq, hpre⟩
      rw [hf] at this
      exact Option.noConfusion this
  | some c =>
    dsimp only
    have hc := (find_by_id_eq_some findingId accs c).mp hf
    by_cases hexp : c.expires_at < now
    · rw [if_pos hexp]
      constructor
      · intro h; exact Option.noConfusion h
      rintro ⟨ha, hexpa, pre, post, heq, hpre⟩
      have : accs.find? (fun x => x.id == findingId) = some a := by
        rw [find_by_id_eq_some]
        exact ⟨ha, pre, post, heq, hpre⟩
      rw [hf] at this
      obtain rfl : c = a := by simpa using this
      omega
    · rw [if_neg hexp]
      constructor
      · intro h
        obtain rfl : c = a := by simpa using h
        exact ⟨hc.1, by omega, hc.2⟩
      · rintro ⟨ha, hexpa, pre, post, heq, hpre⟩
        have : accs.find? (fun x => x.id == findingId) = some a := by
          rw [find_by_id_eq_some]
          exact ⟨ha, pre, post, heq, hpre⟩
        rw [hf] at this
        exact this

/-- An expired matching record sitting in front of the ledger. -/
def recExpired : RiskAcceptance :=
  { id := "X", accepted_at := 0, accepted_by := "u", reason := "old",
    mitigations := [], expires_at := 50, prev_hash := genesisHash }

/-- A later, still-active record for the same finding id. -/
def recActive : RiskAcceptance :=
  { id := "X", accepted_at := 60, accepted_by := "u", reason := "new",
    mitigations := [], expires_at := 500, prev_hash := "h1" }

/-- C5 counterexample: at time 100 the ledger holds an expired record for
`"X"` followed by a non-expired one, so the claimed "most recent non-expired
match" is `recActive`; yet `getAcceptance` returns `none` — the earlier
expired record hides the later active one. -/
theorem getAcceptance_hides_later_cex :
    getAcceptance [recExpired, recActive] "X" 100 = none
    ∧ recActive ∈ [recExpired, recActive]
    ∧ recActive.id = "X"
    ∧ recActive.expires_at ≥ 100 := by
  refine ⟨by decide, by decide, by decide, by decide⟩

/-- Witness for C5 (amended) at a concrete ledger: the first matching record
is returned while it is active. -/
theorem getAcceptance_first_match_witness :
    getAcceptance [recExpired, recActive] "X" 10 = some recExpired :=
  (getAcceptance_first_match [recExpired, recActive] "X" 10 recExpired).mpr
    ⟨by decide, by decide, [], [recActive], rfl, by simp⟩

/-! ### C6 — `loadAcceptances` ordering and failure behaviour -/

/-- C6 (amended): when every line parses, `loadAcceptances` returns the
records in file order (oldest first); when any line fails to parse, the
whole load aborts with an error — the remaining well-formed lines are not
returned. -/
theorem loadAcceptances_spec (parse : String → Option RiskAcceptance)
    (lines : List String) :
    (∀ f : String → RiskAcceptance,
      (∀ l ∈ lines, parse l = some (f l)) →
      loadAcceptances parse lines = .ok (lines.map f))
    ∧ ((∃ l ∈ lines, parse l = none) →
      ∃ msg, loadAcceptances parse lines = .error msg) := by
  induction lines with
  | nil =>
    refine ⟨fun f _ => rfl, ?_⟩
    rintro ⟨l, hl, -⟩
    exact absurd hl (by simp)
  | cons l rest ih =>
    constructor
    · intro f hall
      have hl : parse l = some (f l) := hall l (by simp)
      have hrest := ih.1 f (fun x hx => hall x (by simp [hx]))
      rw [loadAcceptances, hl, hrest]
      rfl
    · rintro ⟨x, hx, hnone⟩
      rcases List.mem_cons.mp hx with rfl | hx
      · exact ⟨_, by rw [loadAcceptances, hnone]⟩
      · cases hl : parse l with
        | none => exact ⟨_, by rw [loadAcceptances, hl]⟩
        | some r =>
          obtain ⟨msg, hmsg⟩ := ih.2 ⟨x, hx, hnone⟩
          refine ⟨msg, ?_⟩
          rw [loadAcceptances, hl, hmsg]

/-- A baseline record for the C6 fixtures. -/
def recLine : RiskAcceptance :=
  { id := "L", accepted_at := 0, accepted_by := "u", reason := "r",
    mitigations := [], expires_at := 10, prev_hash := genesisHash }

/-- Witness parser for C6: the line `"bad"` is malformed, every other line
parses to `recLine` tagged with the line text. -/
def parse6 : String → Option RiskAcceptance :=
  fun s => if s = "bad" then none else some { recLine with id := s }

/-- C6 counterexample: in the ledger `["good1", "bad", "good2"]` only the
middle line is malformed, yet `loadAcceptances` returns no records at all —
the remaining well-formed line `"good2"` is not loaded, contradicting the
claimed per-line tolerance. -/
theorem loadAcceptances_aborts_cex :
    (parse6 "good1").isSome = true
    ∧ (parse6 "good2").isSome = true
    ∧ (loadAcceptances parse6 ["good1", "bad", "good2"]).toOption = none := by
  refine ⟨by decide, by decide, by decide⟩

/-- Witness for C6 (amended) on a fully well-formed two-line ledger. -/
theorem loadAcceptances_spec_witness :
    loadAcceptances parse6 ["good1", "good2"] =
      .ok [{ recLine with id := "good1" }, { recLine with id := "good2" }] :=
  (loadAcceptances_spec parse6 ["good1", "good2"]).1
    (fun s => { recLine with id := s }) (by decide)

/-! ### C7 — `generateLastIncident` window selection -/

/-- The trailing contiguous run of events whose timestamps are at or after
`cutoff` (the property-side rendering of the claim's "last hour" window). -/
def withinHourSuffix (cutoff : Int) (evs : List WatchEvent) : List WatchEvent :=
  (evs.reverse.takeWhile (fun e => decide (cutoff ≤ e.timestamp))).reverse

/-- On fully parsable input the backward scan collects exactly the
reversed maximal prefix of in-window events of the scan list. -/
theorem collectRecent_eq (parseEv : String → Option WatchEvent) (cutoff : Int)
    (f : String → WatchEvent) :
    ∀ (rs : List String), (∀ l ∈ rs, parseEv l = some (f l)) →
      collectRecent parseEv cutoff rs =
        ((rs.map f).takeWhile (fun e => decide (cutoff ≤ e.timestamp))).reverse := by
  intro rs
  induction rs with
  | nil => intro _; rfl
  | cons l rest ih =>
    intro hall
    have hl := hall l (by simp)
    have hrest := ih (fun x hx => hall x (by simp [hx]))
    rw [collectRecent, hl]
    dsimp only
    rw [List.map_cons, List.takeWhile_cons]
    by_cases hlt : (f l).timestamp < cutoff
    · have hd : decide (cutoff ≤ (f l).timestamp) = false := by
        simp only [decide_eq_false_iff_not]; omega
      rw [if_pos hlt, hd]
      rfl
    · have hd : decide (cutoff ≤ (f l).timestamp) = true := by
        simp only [decide_eq_true_eq]; omega
      rw [if_neg hlt, hd, hrest]
      simp

/-- A non-empty trailing window is empty exactly when the list is empty or
its last event is older than the cutoff. -/
theorem withinHourSuffix_eq_nil_iff (cutoff : Int) (evs : List WatchEvent) :
    withinHourSuffix cutoff evs = [] ↔
      evs = [] ∨ ∃ last, evs.getLast? = some last ∧ last.timestamp < cutoff := by
  unfold withinHourSuffix
  rw [List.reverse_eq_nil_iff]
  cases hrev : evs.reverse with
  | nil =>
    have hevs : evs = [] := by
      have := congrArg List.reverse hrev
      simpa using this
    simp [hevs]
  | cons h t =>
    have hlast : evs.getLast? = some h := by
      rw [← List.head?_reverse, hrev]
      rfl
    rw [List.takeWhile_cons]
    by_cases hp : cutoff ≤ h.timestamp
    · have hd : decide (cutoff ≤ h.timestamp) = true := by simpa using hp
      rw [hd]
      constructor
      · intro hcontra
        simp at hcontra
      · rintro (hevs | ⟨last, hl, hlt⟩)
        · rw [hevs] at hrev; simp at hrev
        · rw [hlast] at hl
          obtain rfl : h = last := by simpa using hl
          exact absurd hlt (by omega)
    · have hd : decide (cutoff ≤ h.timestamp) = false := by simpa using hp
      rw [hd]
      constructor
      · intro _
        exact Or.inr ⟨h, hlast, by omega⟩
      · intro _
        simp

/-- C7: `generateLastIncident` returns no incident exactly when the event
log is absent, has no lines, or its newest (last) event is more than one
hour old; and any report it does return is correlated from the trailing
contiguous run of events within the last hour (scanning backward, stopping
at the first older event) with an empty findings list. -/
theorem lastIncident_spec (parseEv : String → Option WatchEvent)
    (accs : List RiskAcceptance) (env : EvidenceEnv)
    (lines : List String) (now : Int) (f : String → WatchEvent)
    (hall : ∀ l ∈ lines, parseEv l = some (f l)) :
    (generateLastIncident parseEv accs env none now = none)
    ∧ (generateLastIncident parseEv accs env (some lines) now = none ↔
        lines = [] ∨
        ∃ last, (lines.map f).getLast? = some last ∧ last.timestamp < now - 3600000)
    ∧ (∀ rep, generateLastIncident parseEv accs env (some lines) now = some rep →
        rep = generateFromEvents accs env
          (withinHourSuffix (now - 3600000) (lines.map f)) [] now) := by
  have hrev : ∀ l ∈ lines.reverse, parseEv l = some (f l) := by
    intro l hl; exact hall l (List.mem_reverse.mp hl)
  have hcoll : collectRecent parseEv (now - 3600000) lines.reverse =
      withinHourSuffix (now - 3600000) (lines.map f) := by
    rw [collectRecent_eq parseEv (now - 3600000) f lines.reverse hrev]
    unfold withinHourSuffix
    rw [List.map_reverse]
  refine ⟨rfl, ?_, ?_⟩
  · rw [generateLastIncident]
    dsimp only
    rw [hcoll]
    by_cases hemp : lines.isEmpty
    · rw [if_pos hemp]
      simp only [true_iff, List.isEmpty_iff] at *
      exact Or.inl hemp
    · rw [if_neg hemp]
      by_cases hsuf : (withinHourSuffix (now - 3600000) (lines.map f)).isEmpty
      · rw [if_pos hsuf]
        simp only [true_iff]
        rw [List.isEmpty_iff, withinHourSuffix_eq_nil_iff] at hsuf
        rcases hsuf with hnil | hex
        · left
          have := congrArg List.length hnil
          simp at this
          simpa using this
        · exact Or.inr hex
      · rw [if_neg hsuf]
        rw [List.isEmpty_iff, withinHourSuffix_eq_nil_iff] at hsuf
        push_neg at hsuf
        constructor
        · intro h; exact Option.noConfusion h
        · rintro (hnil | ⟨last, hl, hlt⟩)
          · rw [hnil] at hemp; exact absurd rfl hemp
          · rcases hsuf with ⟨-, hno⟩
            exact absurd hlt (by simpa using hno last hl)
  · intro rep hrep
    rw [generateLastIncident] at hrep
    dsimp only at hrep
    rw [hcoll] at hrep
    by_cases hemp : lines.isEmpty
    · rw [if_pos hemp] at hrep; exact Option.noConfusion hrep
    · rw [if_neg hemp] at hrep
      by_cases hsuf : (withinHourSuffix (now - 3600000) (lines.map f)).isEmpty
      · rw [if_pos hsuf] at hrep; exact Option.noConfusion hrep
      · rw [if_neg hsuf] at hrep
        have := Option.some.inj hrep
        exact this.symm

/-- A fixed parsable event at epoch 0 for the C7 witness. -/
def evOld : WatchEvent :=
  { timestamp := 0, type := .file_access, severity := .warning,
    source := "auditd", message := "m", details := [] }

/-- Witness parser for C7: the single line `"old"` parses to `evOld`. -/
def parseEv7 : String → Option WatchEvent :=
  fun s => if s = "old" then some evOld else none

/-- Total parse function backing `parseEv7` on the witness lines. -/
def f7 : String → WatchEvent := fun _ => evOld

/-- Witness for C7: an event log whose newest entry is far more than an hour
old yields no incident. -/
theorem lastIncident_spec_witness :
    generateLastIncident parseEv7 [] ⟨[], false⟩ (some ["old"]) 10000000 = none :=
  (lastIncident_spec parseEv7 [] ⟨[], false⟩ ["old"] 10000000 f7
    (by decide)).2.1.mpr (Or.inr ⟨evOld, by decide, by decide⟩)

/-! ### C8 — correlation of a `TOOL-` acceptance with a file-access event -/

/-- A string starting with `TOOL-` starts with neither `CHAN-` nor `NET-`. -/
theorem strStarts_tool_not_chan_net (s : String)
    (h : strStarts s "TOOL-" = true) :
    strStarts s "CHAN-" = false ∧ strStarts s "NET-" = false := by
  unfold strStarts at *
  cases hs : s.toList with
  | nil => rw [hs] at h; exact absurd h (by decide)
  | cons b bs =>
    rw [hs] at h
    have hb : b = 'T' := by
      have h' : ('T' == b && charsHasPre "OOL-".toList bs) = true := h
      have h2 : 'T' = b := by
        have := (Bool.and_eq_true _ _).mp h' |>.1
        simpa using this
      exact h2.symm
    constructor
    · show charsHasPre ('C' :: "HAN-".toList) (b :: bs) = false
      rw [charsHasPre, hb]
      simp
    · show charsHasPre ('N' :: "ET-".toList) (b :: bs) = false
      rw [charsHasPre, hb]
      simp

/-- Membership is preserved by the contribution-advice fold. -/
theorem mem_contribFold (y : String) :
    ∀ (cs : List AcceptedRiskContribution) (acc : List String), y ∈ acc →
      y ∈ cs.foldl (fun acc c =>
        acc
          ++ (if strStarts c.acceptance.id "CHAN-" then ["Restrict channel to allowlist"] else [])
          ++ (if strStarts c.acceptance.id "TOOL-" then ["Re-evaluate sandbox settings"] else []))
        acc := by
  intro cs
  induction cs with
  | nil => intro acc hy; simpa using hy
  | cons c rest ih =>
    intro acc hy
    rw [List.foldl_cons]
    exact ih _ (List.mem_append_left _ (List.mem_append_left _ hy))

/-- Membership in the insertion-order dedup. -/
theorem mem_dedup_aux (xs : List String) :
    ∀ (acc : List String) (y : String),
      (y ∈ xs.foldl (fun acc x => if x ∈ acc then acc else acc ++ [x]) acc ↔
        y ∈ acc ∨ y ∈ xs) := by
  induction xs with
  | nil => intro acc y; simp
  | cons x rest ih =>
    intro acc y
    rw [List.foldl_cons]
    by_cases hx : x ∈ acc
    · rw [if_pos hx, ih]
      constructor
      · rintro (h | h)
        · exact Or.inl h
        · exact Or.inr (by simp [h])
      · rintro (h | h)
        · exact Or.inl h
        · rcases List.mem_cons.mp h with rfl | h
          · exact Or.inl hx
          · exact Or.inr h
    · rw [if_neg hx, ih]
      simp [or_assoc]

/-- The insertion-order dedup produces a duplicate-free list. -/
theorem nodup_dedup_aux (xs : List String) :
    ∀ (acc : List String), acc.Nodup →
      (xs.foldl (fun acc x => if x ∈ acc then acc else acc ++ [x]) acc).Nodup := by
  induction xs with
  | nil => intro acc h; simpa using h
  | cons x rest ih =>
    intro acc h
    rw [List.foldl_cons]
    by_cases hx : x ∈ acc
    · rw [if_pos hx]; exact ih acc h
    · rw [if_neg hx]
      refine ih _ ?_
      rw [List.nodup_append]
      exact ⟨h, List.nodup_singleton x, by simpa [List.disjoint_singleton] using hx⟩

/-- C8: when the active acceptances are exactly one `TOOL-`-prefixed record
and the event set contains a `file_access` event, `correlate` produces
exactly one contribution entry — that acceptance paired with the fixed
tool/sandbox rationale — and its recommendation list contains the sandbox
recommendation and no duplicates. -/
theorem correlate_tool_acceptance (accs : List RiskAcceptance)
    (env : EvidenceEnv) (events : List WatchEvent) (findings : List Finding)
    (now : Int) (a : RiskAcceptance)
    (hactive : accs.filter (fun x => now < x.expires_at) = [a])
    (htool : strStarts a.id "TOOL-" = true)
    (hfa : events.any (fun e => e.type == .file_access) = true) :
    (generateFromEvents accs env events findings now).acceptedRisksContributed
      = [⟨a, "Tool/sandbox acceptance may have allowed file system access"⟩]
    ∧ "Enable sandbox mode for agents"
        ∈ (generateFromEvents accs env events findings now).recommendations
    ∧ (generateFromEvents accs env events findings now).recommendations.Nodup := by
  have hdis := strStarts_tool_not_chan_net a.id htool
  have hc : contributionFor events a =
      some "Tool/sandbox acceptance may have allowed file system access" := by
    unfold contributionFor
    rw [hdis.1, hdis.2, htool, hfa]
    simp
  have hcontrib : findContributingRisks events
      (accs.filter (fun x => now < x.expires_at))
      = [⟨a, "Tool/sandbox acceptance may have allowed file system access"⟩] := by
    rw [hactive]
    unfold findContributingRisks
    rw [List.filterMap_cons, hc]
    rfl
  refine ⟨?_, ?_, ?_⟩
  · show findContributingRisks events (accs.filter (fun x => now < x.expires_at)) = _
    exact hcontrib
  · show "Enable sandbox mode for agents" ∈ generateRecommendations events
      (findContributingRisks events (accs.filter (fun x => now < x.expires_at)))
    rw [hcontrib]
    unfold generateRecommendations dedupInsertionOrder
    dsimp only
    rw [mem_dedup_aux]
    refine Or.inr ?_
    rw [List.foldl_cons, List.foldl_nil]
    refine List.mem_append_left _ (List.mem_append_left _ ?_)
    rw [hfa]
    simp
  · show (generateRecommendations events
      (findContributingRisks events (accs.filter (fun x => now < x.expires_at)))).Nodup
    unfold generateRecommendations dedupInsertionOrder
    exact nodup_dedup_aux _ [] List.nodup_nil

/-- A concrete active `TOOL-` acceptance for the C8 witness. -/
def acceptTool : RiskAcceptance :=
  { id := "TOOL-002", accepted_at := 0, accepted_by := "u",
    reason := "sandbox off", mitigations := [], expires_at := 1000,
    prev_hash := genesisHash }

/-- A concrete file-access event for the C8 witness. -/
def evFA : WatchEvent :=
  { timestamp := 10, type := .file_access, severity := .high,
    source := "auditd", message := "Sensitive file access: x", details := [] }

/-- Witness for C8 on a one-acceptance, one-event instance. -/
theorem correlate_tool_acceptance_witness :
    (generateFromEvents [acceptTool] ⟨[], false⟩ [evFA] [] 100).acceptedRisksContributed
      = [⟨acceptTool, "Tool/sandbox acceptance may have allowed file system access"⟩] :=
  (correlate_tool_acceptance [acceptTool] ⟨[], false⟩ [evFA] [] 100 acceptTool
    (by decide) (by decide) (by decide)).1

/-! ### C9 — audit-event classification -/

/-- C9 (amended): the classifier always produces a `file_access` event whose
severity is `warning` or `high`, and the upgrade to `high` happens exactly
when the matched tag contains `ssh`, `aws`, `creds` or `gpg` as a substring
(so `antenna_ssh`, `antenna_aws`, `antenna_gpg` and `antenna_creds` are
upgraded while `antenna_gcloud` and `antenna_config` are not). -/
theorem handleAuditEvent_classification (e : AuditEvent) (now : Int) :
    (handleAuditEvent e now).type = .file_access
    ∧ ((handleAuditEvent e now).severity = .high ↔
        ∃ k, e.key = some k ∧
          (strIncludes k "ssh" || strIncludes k "aws"
            || strIncludes k "creds" || strIncludes k "gpg") = true)
    ∧ ((handleAuditEvent e now).severity = .high ∨
        (handleAuditEvent e now).severity = .warning) := by
  refine ⟨rfl, ?_, ?_⟩
  · cases hk : e.key with
    | none => simp [handleAuditEvent, hk]
    | some k =>
      by_cases hssh : strIncludes k "ssh" = true <;>
        by_cases haws : strIncludes k "aws" = true <;>
          by_cases hcreds : strIncludes k "creds" = true <;>
            by_cases hgpg : strIncludes k "gpg" = true <;>
              simp [handleAuditEvent, hk, hssh, haws, hcreds, hgpg]
  · dsimp only [handleAuditEvent]
    split
    · exact Or.inl rfl
    · split
      · exact Or.inl rfl
      · exact Or.inr rfl

/-- The audit record of an access to the watched gcloud directory. -/
def gcloudAudit : AuditEvent :=
  { type := "SYSCALL", key := some "antenna_gcloud", auid := none,
    uid := none, exe := none,
    name := some "/home/openclaw/.config/gcloud/credentials.json",
    success := some "yes" }

/-- C9 counterexample: `antenna_gcloud` is one of the installed tags and the
rules file groups it under cloud credentials, yet the classifier leaves its
severity at `warning` — the claimed "upgraded exactly on SSH, cloud-credential
or GPG material" is false for it. -/
theorem handleAuditEvent_gcloud_cex :
    "antenna_gcloud" ∈ cloudCredentialTags
    ∧ "antenna_gcloud" ∈ installedTags
    ∧ (handleAuditEvent gcloudAudit 0).severity = .warning := by
  refine ⟨by decide, by decide, by decide⟩

/-- The audit record of an access under the watched SSH directory. -/
def sshAudit : AuditEvent :=
  { type := "SYSCALL", key := some "antenna_ssh", auid := none,
    uid := none, exe := none, name := some "/home/openclaw/.ssh/id_ed25519",
    success := some "yes" }

/-- Witness for C9 (amended): an `antenna_ssh` access is upgraded to
severity `high`. -/
theorem handleAuditEvent_classification_witness :
    (handleAuditEvent sshAudit 0).severity = .high :=
  (handleAuditEvent_classification sshAudit 0).2.1.mpr
    ⟨"antenna_ssh", rfl, by decide⟩


end Antenna
